import Mathlib

/-!
Verification development for the aurora-dev repository.

The two build scripts (`scripts/fetch-github.mts`, `scripts/summarize-ai.mts`),
the project filter module and `src/lib/renderMarkdown.ts` are shallowly
embedded below.  JavaScript strings are modelled as Lean `String`
(`List Char`); JavaScript string primitives (`split`, `trim`, `toLowerCase`,
`startsWith`, single-character global `replace`) are re-implemented as
structurally recursive functions over `List Char` so that every definition
evaluates inside the kernel.  Millisecond timestamps are modelled as `Int`
(`new Date(iso).getTime()` of a valid ISO string); a nullable field is an
`Option`.
-/

namespace Aurora

/-- JS `s.replace(/c/g, rep)` for a single-character pattern `c`: global
replacement is character-wise. -/
def replaceChar (pat : Char) (rep : List Char) : List Char → List Char
  | [] => []
  | c :: cs => (if c = pat then rep else [c]) ++ replaceChar pat rep cs

/-- JS `s.split(sep)` for a single-character separator `sep` (keeps empty
segments, as JavaScript does). -/
def splitChar (sep : Char) : List Char → List (List Char)
  | [] => [[]]
  | c :: cs =>
    if c = sep then [] :: splitChar sep cs
    else
      match splitChar sep cs with
      | [] => [[c]]
      | s :: ss => (c :: s) :: ss

/-- Worker for `jsSplit`: left-to-right scan, fuelled to stay structurally
recursive.  The fuel is the length of the remaining input, which the scan
never exhausts (each step consumes at least one character). -/
def jsSplitGo (sep : List Char) : Nat → List Char → List Char → List (List Char)
  | _, acc, [] => [acc.reverse]
  | 0, acc, l => [acc.reverse ++ l]
  | Nat.succ fuel, acc, c :: cs =>
    if sep.isPrefixOf (c :: cs) then
      acc.reverse :: jsSplitGo sep fuel [] (List.drop sep.length (c :: cs))
    else
      jsSplitGo sep fuel (c :: acc) cs

/-- JS `s.split(sep)` for a non-empty string separator. -/
def jsSplit (s sep : String) : List String :=
  (jsSplitGo sep.data s.data.length [] s.data).map fun l => String.mk l

/-- JS `s.trim()`: drop leading and trailing whitespace. -/
def jsTrim (s : String) : String :=
  String.mk (((s.data.dropWhile Char.isWhitespace).reverse.dropWhile
    Char.isWhitespace).reverse)

/-- JS `s.toLowerCase()` (ASCII case folding, which covers every string the
scripts compare). -/
def jsToLower (s : String) : String :=
  String.mk (s.data.map Char.toLower)

/-- JS `s.startsWith(pre)`. -/
def jsStartsWith (s pre : String) : Bool :=
  pre.data.isPrefixOf s.data

/-- Worker for `strHasSub`. -/
def hasSubAux (needle : List Char) : List Char → Bool
  | [] => needle.isEmpty
  | c :: rest => needle.isPrefixOf (c :: rest) || hasSubAux needle rest

/-- JS `s.includes(sub)`. -/
def strHasSub (s sub : String) : Bool :=
  hasSubAux sub.data s.data

/-- JS `array.join(sep)` for an array of strings. -/
def joinSep (sep : String) : List String → String
  | [] => ""
  | [s] => s
  | s :: rest => s ++ sep ++ joinSep sep rest

/-- Concatenation of the images of `f`, in order (JS repeated `push` of the
lines produced for each element). -/
def catMap (f : α → List β) : List α → List β
  | [] => []
  | a :: l => f a ++ catMap f l

/-- Lexicographic comparison of character lists by code point; this is the
order JS `Array.prototype.sort()` uses on the (BMP) strings the scripts
produce. -/
def charListLe : List Char → List Char → Bool
  | [], _ => true
  | _ :: _, [] => false
  | a :: as, b :: bs =>
    if a.toNat < b.toNat then true
    else if b.toNat < a.toNat then false
    else charListLe as bs

/-- String comparison used to model JS default `sort()`. -/
def strLeB (a b : String) : Bool :=
  charListLe a.data b.data

/-- Insertion step of `sortBy`. -/
def insertBy (le : α → α → Bool) (a : α) : List α → List α
  | [] => [a]
  | b :: l => if le a b then a :: b :: l else b :: insertBy le a l

/-- Stable insertion sort; models JS `Array.prototype.sort(cmp)` (stable
since ES2019) with `le a b` standing for `cmp(a, b) <= 0`. -/
def sortBy (le : α → α → Bool) : List α → List α
  | [] => []
  | a :: l => insertBy le a (sortBy le l)

-- ===== src/lib/renderMarkdown.ts =====

/-- The escaped body built by `renderMarkdownString`: `&` replaced by
`&amp;`, then `<` by `&lt;`, then `>` by `&gt;` (the source's three chained
global `replace` calls, in that order). -/
def escapedBody (md : String) : String :=
  String.mk (replaceChar '>' "&gt;".data
    (replaceChar '<' "&lt;".data
      (replaceChar '&' "&amp;".data md.data)))

/-- `renderMarkdownString` from `src/lib/renderMarkdown.ts` (the returned
promise always resolves, so the embedding is the resolved string). -/
def renderMarkdownString (md : String) : String :=
  "<pre>" ++ escapedBody md ++ "</pre>"

-- lemmas about replaceChar

theorem mem_replaceChar {c pat : Char} {rep : List Char} :
    ∀ {l : List Char}, c ∈ replaceChar pat rep l → c ∈ rep ∨ (c ∈ l ∧ c ≠ pat) := by
  intro l
  induction l with
  | nil => intro h; simp [replaceChar] at h
  | cons x xs ih =>
    intro h
    simp only [replaceChar, List.mem_append] at h
    rcases h with h | h
    · by_cases hx : x = pat
      · rw [if_pos hx] at h
        exact Or.inl h
      · rw [if_neg hx] at h
        simp at h
        subst h
        exact Or.inr ⟨List.mem_cons_self _ _, hx⟩
    · rcases ih h with h' | ⟨hmem, hne⟩
      · exact Or.inl h'
      · exact Or.inr ⟨List.mem_cons_of_mem _ hmem, hne⟩

theorem escapedBody_no_angle (md : String) :
    ∀ c ∈ (escapedBody md).data, c ≠ '<' ∧ c ≠ '>' := by
  intro c hc
  have hc' : c ∈ replaceChar '>' "&gt;".data
      (replaceChar '<' "&lt;".data (replaceChar '&' "&amp;".data md.data)) := hc
  constructor
  · intro hlt
    subst hlt
    rcases mem_replaceChar hc' with h | ⟨h, _⟩
    · simp at h
    · rcases mem_replaceChar h with h' | ⟨_, hne⟩
      · simp at h'
      · exact hne rfl
  · intro hgt
    subst hgt
    rcases mem_replaceChar hc' with h | ⟨h, hne⟩
    · simp at h
    · exact hne rfl

-- ===== src/unnamed/part_001 (projects module) =====

/-- Project record (`type Project` in the projects module).  `updatedAt` is
the parsed millisecond value of the optional ISO date string. -/
structure Project where
  slug : String
  name : String
  description : String
  tags : List String
  featured : Option Bool
  updatedAt : Option Int
deriving Repr, DecidableEq

/-- Comparator of the `PROJECTS` normalisation/sort:
featured desc, then `updatedAt` desc, then `name` asc
(`a.featured ? 1 : 0`, `a.updatedAt ? Date.parse(a.updatedAt) : 0`,
`a.name.localeCompare(b.name)` modelled as code-point comparison). -/
def projectsComparator (a b : Project) : Int :=
  let fa : Int := if a.featured.getD false then 1 else 0
  let fb : Int := if b.featured.getD false then 1 else 0
  if fa ≠ fb then fb - fa
  else
    let da := a.updatedAt.getD 0
    let db := b.updatedAt.getD 0
    if da ≠ db then db - da
    else if strLeB a.name b.name && !(a.name == b.name) then -1
    else if a.name == b.name then 0
    else 1

/-- Filter options (`type FilterOptions`). -/
structure FilterOptions where
  q : Option String
  tags : Option (List String)

/-- `filterProjects` from the projects module. -/
def filterProjects (projects : List Project) (opts : FilterOptions) : List Project :=
  let q := jsToLower (jsTrim (opts.q.getD ""))
  let tags := (opts.tags.getD []).map jsToLower
  projects.filter fun p =>
    let textMatch :=
      q == "" ||
      strHasSub (jsToLower p.name) q ||
      strHasSub (jsToLower p.description) q ||
      strHasSub (jsToLower p.slug) q
    let tagMatch :=
      tags.isEmpty || tags.all fun t => p.tags.contains t
    textMatch && tagMatch

-- ===== scripts/fetch-github.mts (Collector) =====

/-- Rate-limit snapshot consolidated into the cache (`Cache['rate']`). -/
structure Rate where
  rlimit : Int
  remaining : Int
  reset : Option Int
deriving Repr, DecidableEq

/-- Observable part of a REST `fetch` response as `ghGet` reads it: the three
`x-ratelimit-*` headers (absent header ↦ `Number('0') = 0`, modelled by
`Option Int` with default `0`), the `ok` flag, the status, the body text and
the parsed JSON payload (kept abstract in `α`). -/
structure RestResponse (α : Type) where
  rlLimit : Option Int
  rlRemaining : Option Int
  rlReset : Option Int
  ok : Bool
  status : Nat
  bodyText : String
  json : α

/-- Errors thrown by `ghGet`. -/
inductive GhError where
  | rateLimit (rlimit remaining reset : Int)
  | httpError (status : Nat) (bodyText : String)
deriving Repr, DecidableEq

/-- `ghGet`: reads the rate-limit headers, throws a rate-limit-exhausted
error when `remaining <= 0` (the error message includes limit, remaining and
reset), then throws on a non-ok status, and otherwise returns the JSON
payload together with the rate snapshot. -/
def ghGet (resp : RestResponse α) : Except GhError (α × Rate) :=
  let rlimit := resp.rlLimit.getD 0
  let rem := resp.rlRemaining.getD 0
  let reset := resp.rlReset.getD 0
  if rem ≤ 0 then .error (.rateLimit rlimit rem reset)
  else if !resp.ok then .error (.httpError resp.status resp.bodyText)
  else .ok (resp.json, ⟨rlimit, rem, reset⟩)

/-- Pinned repository as normalised by `fetchPinnedGraphQL`. -/
structure Pinned where
  name : String
  description : Option String
  stargazers_count : Int
  forks_count : Int
  primaryLanguage : Option String
  url : String
  homepageUrl : Option String
deriving Repr, DecidableEq

/-- One node of `data.data.user.pinnedItems.nodes` in the GraphQL response. -/
structure PinnedNode where
  name : String
  description : Option String
  stargazerCount : Int
  forkCount : Int
  url : String
  homepageUrl : Option String
  primaryLanguage : Option String
deriving Repr, DecidableEq

/-- The `rateLimit` object of the GraphQL response; `resetAt` is the parsed
millisecond value of the ISO string. -/
structure GqlRate where
  rlimit : Int
  remaining : Int
  resetAt : Option Int
deriving Repr, DecidableEq

/-- Observable part of the GraphQL `fetch` response as `fetchPinnedGraphQL`
reads it. -/
structure GqlResponse where
  ok : Bool
  bodyText : String
  nodes : List PinnedNode
  rateLimit : Option GqlRate
deriving Repr, DecidableEq

/-- `fetchPinnedGraphQL`: returns `{ pinned: [] }` when the GraphQL path is
disabled or the response is not ok (a warning is logged, nothing is thrown),
and otherwise maps the nodes and the body's `rateLimit` object.  Note:
unlike `ghGet`, no `x-ratelimit` header guard is performed on this call. -/
def fetchPinnedGraphQL (useGraphQL : Bool) (resp : GqlResponse) :
    List Pinned × Option Rate :=
  if !useGraphQL then ([], none)
  else if !resp.ok then ([], none)
  else
    let pinned := resp.nodes.map fun n =>
      { name := n.name
        description := n.description
        stargazers_count := n.stargazerCount
        forks_count := n.forkCount
        primaryLanguage := n.primaryLanguage
        url := n.url
        homepageUrl := n.homepageUrl : Pinned }
    let rate := resp.rateLimit.map fun rl =>
      { rlimit := rl.rlimit
        remaining := rl.remaining
        reset := rl.resetAt.map (· / 1000) : Rate }
    (pinned, rate)

-- ===== scripts/summarize-ai.mts (Digest Builder) =====

/-- `withinLastDays(iso, days)`: `false` for a null/absent timestamp (the
`!iso` guard), otherwise `now - dt <= days * 24 * 60 * 60 * 1000`.  `now` is
`Date.now()` of the run, passed explicitly; `iso` is the parsed millisecond
value of the ISO string. -/
def withinLastDays (now : Int) (iso : Option Int) (days : Int) : Bool :=
  match iso with
  | none => false
  | some dt => decide (now - dt ≤ days * 24 * 60 * 60 * 1000)

/-- Repository record of the cache (`type Repo` in summarize-ai.mts,
restricted to the fields the script reads). -/
structure Repo where
  name : String
  full_name : String
  language : Option String
  html_url : String
  homepage : Option String
  pushed_at : Option Int
  updated_at : Option Int
deriving Repr, DecidableEq

/-- Activity event of the cache (`type Event`).  `repoName` is `e.repo?.name`
(`none` when absent); the `p*` fields are the speculative payload paths the
changelog bullets read, each `none` when the path is missing. -/
structure Event where
  id : String
  type : String
  created_at : Option Int
  repoName : Option String
  pSize : Option Nat
  pAction : Option String
  pIssueNumber : Option Nat
  pRefType : Option String
  pRef : Option String
  pTagName : Option String
  pNumber : Option Nat
deriving Repr, DecidableEq

/-- Pull-request record of the cache (`type PR`, restricted to the fields the
script reads). -/
structure PR where
  number : Nat
  title : String
  state : String
  html_url : String
  repository_url : Option String
  merged_at : Option Int
deriving Repr, DecidableEq

/-- Cache document (`type Cache`). -/
structure Cache where
  fetchedAt : String
  user : String
  repos : List Repo
  events : List Event
  prs : List PR
deriving Repr, DecidableEq

/-- Recency key of the `recentRepos` comparator:
`new Date(b.pushed_at || b.updated_at || 0).getTime()`. -/
def repoRecency (r : Repo) : Int :=
  (r.pushed_at.getD (r.updated_at.getD 0))

/-- Comparator of the `recentRepos` sort (`(a, b) => recency(b) - recency(a)`). -/
def recentReposComparator (a b : Repo) : Int :=
  repoRecency b - repoRecency a

/-- Comparator of the `mergedPRs` sort
(`(a, b) => new Date(b.merged_at!).getTime() - new Date(a.merged_at!).getTime()`;
the non-null assertion is modelled by `getD 0`, and the comparator is only
applied to PRs that passed the `merged_at` filter). -/
def mergedPRsComparator (a b : PR) : Int :=
  b.merged_at.getD 0 - a.merged_at.getD 0

/-- `mergedPRs`: PRs with a `merged_at` in the last 14 days, sorted by merge
time descending, first 50. -/
def mergedPRs (now : Int) (cache : Cache) : List PR :=
  (sortBy (fun a b => mergedPRsComparator a b ≤ 0)
    (cache.prs.filter fun pr =>
      pr.merged_at.isSome && withinLastDays now pr.merged_at 14)).take 50

/-- Event types kept by the `interestingEvents` filter. -/
def interestingTypes : List String :=
  ["PushEvent", "PullRequestEvent", "ReleaseEvent", "IssuesEvent", "CreateEvent"]

/-- `interestingEvents`: events of the last 14 days whose type is in
`interestingTypes`, first 80. -/
def interestingEvents (now : Int) (cache : Cache) : List Event :=
  (((cache.events.filter fun e => withinLastDays now e.created_at 14).filter
      fun e => interestingTypes.contains e.type)).take 80

/-- `repoOfPR`: `pr.repository_url?.split('/').slice(-2).join('/')`, then
`r || ''` (absent URL, or an empty join, yields the empty string). -/
def repoOfPR (url : Option String) : String :=
  match url with
  | none => ""
  | some u =>
    let segs := splitChar '/' u.data
    let r := joinSep "/" ((segs.drop (segs.length - 2)).map fun l => String.mk l)
    if r = "" then "" else r

/-- JS template interpolation of a possibly-undefined string value
(`undefined` prints as `"undefined"`). -/
def jsStr (o : Option String) : String :=
  o.getD "undefined"

/-- JS template interpolation of a possibly-undefined numeric value. -/
def jsNat (o : Option Nat) : String :=
  match o with
  | some n => toString n
  | none => "undefined"

/-- The `buckets` map of `buildHeuristicChangelog`: a JS `Map` keyed by
repository name, modelled as an insertion-ordered association list. -/
abbrev Buckets : Type := List (String × List String)

/-- `add(repo, line)`: push onto the existing bucket (a `Map.set` on an
existing key keeps its position) or append a new key at the end. -/
def addB : Buckets → String → String → Buckets
  | [], repo, line => [(repo, [line])]
  | kv :: rest, repo, line =>
    if kv.1 = repo then (kv.1, kv.2 ++ [line]) :: rest
    else kv :: addB rest repo line

/-- `buckets.get(k)` (with `[]` for a missing key, as in `get(k) || []`). -/
def lookupB : Buckets → String → List String
  | [], _ => []
  | kv :: rest, k => if kv.1 = k then kv.2 else lookupB rest k

/-- Fold of `add` over a list of `(repo, line)` pairs. -/
def foldAdd (b : Buckets) (ps : List (String × String)) : Buckets :=
  ps.foldl (fun b p => addB b p.1 p.2) b

/-- Owning repository of an event bullet: `e.repo?.name || 'desconhecido'`. -/
def eventRepoName (e : Event) : String :=
  e.repoName.getD "desconhecido"

/-- Changelog bullet for a merged PR. -/
def chgPRBullet (pr : PR) : String :=
  let n := toString pr.number
  let t := pr.title
  let u := pr.html_url
  s!"- PR **#{n}** merged: {t} — [link]({u})"

/-- Changelog bullet for a push event (`payload?.size ?? 'n'`). -/
def pushBullet (e : Event) : String :=
  let sz := match e.pSize with
    | some n => toString n
    | none => "n"
  s!"- Push ({sz} commit[s])"

/-- Changelog bullet for an issues event. -/
def issueBullet (e : Event) : String :=
  let a := jsStr e.pAction
  let n := jsNat e.pIssueNumber
  s!"- Issue: {a} — #{n}"

/-- Changelog bullet for a create event (`payload?.ref || ''`). -/
def createBullet (e : Event) : String :=
  let rt := jsStr e.pRefType
  let rf := e.pRef.getD ""
  s!"- Create: {rt} {rf}"

/-- Changelog bullet for a release event (`payload?.release?.tag_name || ''`). -/
def releaseChgBullet (e : Event) : String :=
  let tg := e.pTagName.getD ""
  s!"- Release: {tg}"

/-- Changelog bullet for a pull-request event. -/
def prEventBullet (e : Event) : String :=
  let a := jsStr e.pAction
  let n := jsNat e.pNumber
  s!"- PR: {a} — #{n}"

/-- One iteration of the event loop of `buildHeuristicChangelog`: the five
independent `if` statements of the source (their conditions are mutually
exclusive string comparisons). -/
def eventStep (b : Buckets) (e : Event) : Buckets :=
  let repo := eventRepoName e
  let b1 := if e.type = "PushEvent" then addB b repo (pushBullet e) else b
  let b2 := if e.type = "IssuesEvent" then addB b1 repo (issueBullet e) else b1
  let b3 := if e.type = "CreateEvent" then addB b2 repo (createBullet e) else b2
  let b4 := if e.type = "ReleaseEvent" then addB b3 repo (releaseChgBullet e) else b3
  if e.type = "PullRequestEvent" then addB b4 repo (prEventBullet e) else b4

/-- The bullet an interesting event contributes, as a single dispatch on its
type (equal to `eventStep`'s behaviour on every event whose type passed the
`interestingTypes` filter). -/
def eventLine (e : Event) : String :=
  if e.type = "PushEvent" then pushBullet e
  else if e.type = "IssuesEvent" then issueBullet e
  else if e.type = "CreateEvent" then createBullet e
  else if e.type = "ReleaseEvent" then releaseChgBullet e
  else prEventBullet e

/-- The buckets after both loops of `buildHeuristicChangelog` (merged PRs
first, then the interesting events). -/
def chgBuckets (now : Int) (cache : Cache) : Buckets :=
  let b1 := (mergedPRs now cache).foldl
    (fun b pr => addB b (repoOfPR pr.repository_url) (chgPRBullet pr)) []
  (interestingEvents now cache).foldl eventStep b1

/-- Placeholder emitted when no repository received a bullet. -/
def chgPlaceholder : String :=
  "_Sem mudanças relevantes nesta semana._"

/-- The `lines` array of `buildHeuristicChangelog`: one section (`### key`,
its bucket's lines, a blank line) per key in `Array.from(keys).sort()`
order, or the placeholder when the array would be empty. -/
def buildHeuristicChangelogLines (now : Int) (cache : Cache) : List String :=
  let buckets := chgBuckets now cache
  let keys := sortBy strLeB (buckets.map Prod.fst)
  let lines := keys.foldl
    (fun acc k => acc ++ (s!"### {k}" :: (lookupB buckets k ++ [""]))) []
  if lines = [] then [chgPlaceholder] else lines

/-- `buildHeuristicChangelog` (`lines.join('\n')`). -/
def buildHeuristicChangelog (now : Int) (cache : Cache) : String :=
  joinSep "\n" (buildHeuristicChangelogLines now cache)

-- spec-side reformulation of the changelog grouping, for claim C2's
-- amended statement.  Note the domain: the pipeline views `mergedPRs` and
-- `interestingEvents` carry the code's `.slice(0, 50)` / `.slice(0, 80)`
-- truncations, so this is a partition of the CAPPED views, not of all
-- windowed, type-filtered records — records beyond the caps are dropped
-- and get no bullet (see the C2 counterexample).

/-- Spec-side view of claim C2's amended statement: every merged PR of the
capped `mergedPRs` view (50 most recent) and every event of the capped
`interestingEvents` view (first 80) as a `(owning repository, bullet)`
pair, PRs first. -/
def chgPairs (now : Int) (cache : Cache) : List (String × String) :=
  (mergedPRs now cache).map (fun pr => (repoOfPR pr.repository_url, chgPRBullet pr)) ++
    (interestingEvents now cache).map (fun e => (eventRepoName e, eventLine e))

/-- Spec-side section headers of claim C2's amended statement: the distinct
owning-repository names of the capped views that received at least one
bullet, sorted lexicographically. -/
def specChangelogRepos (now : Int) (cache : Cache) : List String :=
  sortBy strLeB ((chgPairs now cache).map Prod.fst).dedup

/-- Spec-side section body of claim C2's amended statement: the
repository's merged-PR bullets first, then its event bullets, each group in
encounter order, both drawn from the capped views. -/
def specBulletsOf (now : Int) (cache : Cache) (k : String) : List String :=
  ((mergedPRs now cache).filter fun pr => repoOfPR pr.repository_url = k).map chgPRBullet ++
    ((interestingEvents now cache).filter fun e => eventRepoName e = k).map eventLine

/-- Spec-side changelog of claim C2's amended statement: one section per
header, or the single placeholder line when no repository has a bullet. -/
def specChangelogLines (now : Int) (cache : Cache) : List String :=
  if specChangelogRepos now cache = [] then [chgPlaceholder]
  else catMap (fun k => s!"### {k}" :: (specBulletsOf now cache k ++ [""]))
    (specChangelogRepos now cache)

-- generative rewriting (aiSummarize)

/-- Result record of `aiSummarize`. -/
structure Summary where
  source : String
  highlights : List String
  changelog : String
deriving Repr, DecidableEq

/-- Outcome of the single generative-text call `aiSummarize` makes:
no credential in the environment, a thrown network error, a non-ok HTTP
response, or an ok response whose extracted text is `text`
(`json?.choices?.[0]?.message?.content ?? json?.choices?.[0]?.text ?? ''`;
a missing field yields `""`). -/
inductive AICallOutcome where
  | noProvider
  | thrown
  | notOk (status : Nat) (bodyText : String)
  | okText (text : String)
deriving Repr, DecidableEq

/-- `text.split('===CHANGELOG===')`. -/
def aiParts (text : String) : List String :=
  jsSplit text "===CHANGELOG==="

/-- `parts[0].split('===HIGHLIGHTS===').pop() || ''`. -/
def aiHighRaw (text : String) : String :=
  (jsSplit ((aiParts text).headD "") "===HIGHLIGHTS===").getLastD ""

/-- `parts[1] || ''`. -/
def aiChgRaw (text : String) : String :=
  (aiParts text).getD 1 ""

/-- `highRaw.split('\n').map(trim).filter(startsWith('- '))`. -/
def aiHighs (text : String) : List String :=
  (((splitChar '\n' (aiHighRaw text).data).map fun l => jsTrim (String.mk l)).filter
    fun l => jsStartsWith l "- ")

/-- `chgRaw.trim() || changelogDraft`. -/
def aiChg (text changelogDraft : String) : String :=
  if jsTrim (aiChgRaw text) = "" then changelogDraft else jsTrim (aiChgRaw text)

/-- `aiSummarize(highlightsDraft, changelogDraft)`, as a function of the one
call outcome (the script performs no retry: a single `fetch` decides the
result).  Every failure path returns the drafts unchanged under source
`"heuristic"`; an ok non-empty response is parsed, keeping the heuristic
highlights when no bullet line was found, under source `"ai"`. -/
def aiSummarize (highlightsDraft : List String) (changelogDraft : String)
    (maxHighlights : Nat) (outcome : AICallOutcome) : Summary :=
  match outcome with
  | .noProvider => ⟨"heuristic", highlightsDraft, changelogDraft⟩
  | .thrown => ⟨"heuristic", highlightsDraft, changelogDraft⟩
  | .notOk _ _ => ⟨"heuristic", highlightsDraft, changelogDraft⟩
  | .okText text =>
    if text = "" then ⟨"heuristic", highlightsDraft, changelogDraft⟩
    else if aiHighs text = [] then
      ⟨"ai", highlightsDraft, aiChg text changelogDraft⟩
    else
      ⟨"ai", (aiHighs text).take (max 3 maxHighlights), aiChg text changelogDraft⟩

/-- Front-matter lines written at the top of both generated documents; the
`source` argument is the `source` field of the `aiSummarize` result,
recorded verbatim. -/
def frontLines (title week generatedAt source author : String) : List String :=
  ["---", s!"title: \"{title}\"", s!"week: \"{week}\"",
    s!"generatedAt: \"{generatedAt}\"", s!"source: \"{source}\"",
    s!"author: \"{author}\"", "---", ""]

/-- `front(title)` (`lines.join('\n')`). -/
def front (title week generatedAt source author : String) : String :=
  joinSep "\n" (frontLines title week generatedAt source author)

-- ===== claim C3 =====

/-- Claim C3: `withinLastDays(ts, 14)` is false for a null/absent timestamp,
false for a timestamp strictly older than `14 * 86400000` ms before now, and
true otherwise; the boundary timestamp exactly 14 days old yields true. -/
theorem c3_withinLastDays_spec (now t : Int) :
    withinLastDays now none 14 = false ∧
    (withinLastDays now (some t) 14 = true ↔ now - t ≤ 14 * 86400000) ∧
    withinLastDays now (some (now - 14 * 86400000)) 14 = true := by
  refine ⟨rfl, ?_, ?_⟩
  · simp only [withinLastDays, decide_eq_true_eq]
    omega
  · simp only [withinLastDays, decide_eq_true_eq]
    omega

-- ===== claim C4 =====

/-- Claim C4: when the generative call fails (thrown network error, non-ok
HTTP status, or empty response text), `aiSummarize` returns exactly the
heuristic highlights and changelog drafts with source `"heuristic"`; the
model consumes a single call outcome, so no retry exists. -/
theorem c4_ai_failure_fallback (hl : List String) (chg : String) (mh : Nat)
    (st : Nat) (body : String) :
    aiSummarize hl chg mh .thrown = ⟨"heuristic", hl, chg⟩ ∧
    aiSummarize hl chg mh (.notOk st body) = ⟨"heuristic", hl, chg⟩ ∧
    aiSummarize hl chg mh (.okText "") = ⟨"heuristic", hl, chg⟩ := by
  refine ⟨rfl, rfl, ?_⟩
  simp [aiSummarize]

-- ===== claim C10 =====

/-- Claim C10: `renderMarkdownString md` is `<pre>` ++ body ++ `</pre>`
where the body is `md` with `&` replaced by `&amp;`, then `<` by `&lt;`,
then `>` by `&gt;`; consequently the body contains no `<` and no `>`. -/
theorem c10_renderMarkdown_escapes (md : String) :
    renderMarkdownString md = "<pre>" ++ escapedBody md ++ "</pre>" ∧
    ∀ c ∈ (escapedBody md).data, c ≠ '<' ∧ c ≠ '>' :=
  ⟨rfl, escapedBody_no_angle md⟩

/-- Witness for claim C10 at the concrete input `"a<b&"`. -/
theorem c10_renderMarkdown_escapes_witness :
    'a' ∈ (escapedBody "a<b&").data ∧ ('a' ≠ '<' ∧ 'a' ≠ '>') :=
  ⟨by decide, (c10_renderMarkdown_escapes "a<b&").2 'a' (by decide)⟩

-- ===== claim C9 =====

/-- Claim C9: `filterProjects` with an empty/whitespace-only query and an
empty tag list returns the input list unchanged, and for arbitrary options
it returns a sublist of the input (no reordering, no additions). -/
theorem c9_filterProjects_identity (projects : List Project)
    (opts : FilterOptions) (hq : jsTrim (opts.q.getD "") = "")
    (ht : opts.tags.getD [] = []) :
    filterProjects projects opts = projects ∧
    ∀ opts2 : FilterOptions, (filterProjects projects opts2).Sublist projects := by
  constructor
  · have h1 : jsToLower (jsTrim (opts.q.getD "")) = "" := by rw [hq]; rfl
    simp [filterProjects, h1, ht]
  · intro opts2
    exact List.filter_sublist _

/-- Witness for claim C9: a whitespace-only query and empty tag list keep a
concrete one-project list unchanged. -/
theorem c9_filterProjects_identity_witness :
    jsTrim ((some "  " : Option String).getD "") = "" ∧
    filterProjects [⟨"s", "n", "d", [], none, none⟩] ⟨some "  ", some []⟩ =
      [⟨"s", "n", "d", [], none, none⟩] :=
  ⟨by decide,
    (c9_filterProjects_identity [⟨"s", "n", "d", [], none, none⟩]
      ⟨some "  ", some []⟩ (by decide) (by decide)).1⟩

-- ===== claim C6 =====

/-- Concrete GraphQL response whose reported `rateLimit.remaining` is `0`. -/
def gqlZeroRemaining : GqlResponse :=
  { ok := true
    bodyText := ""
    nodes := [⟨"repo-a", some "d", 3, 1, "https://github.com/u/repo-a", none, some "TS"⟩]
    rateLimit := some ⟨5000, 0, some 1700000000000⟩ }

/-- Counterexample to claim C6: the Collector's GraphQL pinned-items call
performs no remaining-calls guard — on a response reporting
`remaining = 0` it completes normally, returning the mapped pinned item and
the exhausted rate snapshot instead of aborting with a rate-limit error. -/
theorem c6_counterexample :
    fetchPinnedGraphQL true gqlZeroRemaining =
      ([⟨"repo-a", some "d", 3, 1, some "TS", "https://github.com/u/repo-a", none⟩],
        some ⟨5000, 0, some 1700000000⟩) ∧
    (fetchPinnedGraphQL true gqlZeroRemaining).2.map Rate.remaining = some 0 := by
  constructor
  · rfl
  · rfl

/-- Claim C6 (amended): every REST call, all of which go through `ghGet`,
checks the reported remaining-calls counter and, whenever it is zero or
less, aborts with a rate-limit-exhausted error carrying the reported reset
time, regardless of the response's status flag or body — i.e. before any
further processing; the GraphQL pinned-items call is exempt from this
guard (see the counterexample). -/
theorem c6_ghGet_rate_guard {α : Type} (resp : RestResponse α)
    (h : resp.rlRemaining.getD 0 ≤ 0) :
    ghGet resp = .error (.rateLimit (resp.rlLimit.getD 0)
      (resp.rlRemaining.getD 0) (resp.rlReset.getD 0)) := by
  simp [ghGet, h]

/-- Witness for claim C6's amended theorem: a concrete ok response with
`x-ratelimit-remaining: 0` makes `ghGet` abort with the rate-limit error. -/
theorem c6_ghGet_rate_guard_witness :
    ((⟨some 60, some 0, some 1234, true, 200, "", 7⟩ :
        RestResponse Nat).rlRemaining.getD 0 ≤ 0) ∧
    ghGet (⟨some 60, some 0, some 1234, true, 200, "", 7⟩ : RestResponse Nat) =
      .error (.rateLimit 60 0 1234) :=
  ⟨by decide, c6_ghGet_rate_guard _ (by decide)⟩

-- ===== claim C5 =====

/-- Counterexample to claim C5: on the delimiter-free response `"hello"`
(whose changelog portion `parts[1] || ''` is empty) the builder does keep
the heuristic highlights, but the recorded source tag is the literal
`"ai"` — not `"heuristic"` as the claim requires for an empty changelog
portion, and not the claimed value `"ai-generated"` either. -/
theorem c5_counterexample :
    aiChgRaw "hello" = "" ∧
    aiSummarize ["- h1"] "draft" 5 (.okText "hello") = ⟨"ai", ["- h1"], "draft"⟩ ∧
    (aiSummarize ["- h1"] "draft" 5 (.okText "hello")).source ≠ "heuristic" ∧
    (aiSummarize ["- h1"] "draft" 5 (.okText "hello")).source ≠ "ai-generated" := by
  refine ⟨by decide, by decide, by decide, by decide⟩

/-- Claim C5 (amended): when the non-empty response yields no parsed bullet
line (in particular any delimiter-free response without `"- "` lines), the
builder keeps the heuristic highlights and falls back to the heuristic
changelog when the changelog portion is blank; the source tag recorded into
the front matter is the literal `"ai"` for every non-empty response —
regardless of the changelog portion — and `"heuristic"` otherwise, so the
recorded tag is always one of `"heuristic"` and `"ai"` (never
`"ai-generated"`). -/
theorem c5_source_tag_amended (hl : List String) (chg : String) (mh : Nat)
    (text : String) (h1 : text ≠ "") (h2 : aiHighs text = []) :
    aiSummarize hl chg mh (.okText text) = ⟨"ai", hl, aiChg text chg⟩ ∧
    (∀ oc : AICallOutcome, (aiSummarize hl chg mh oc).source = "heuristic" ∨
      (aiSummarize hl chg mh oc).source = "ai") ∧
    ∀ ttl wk gen auth : String, s!"source: \"ai\"" ∈
      frontLines ttl wk gen (aiSummarize hl chg mh (.okText text)).source auth := by
  have hmain : aiSummarize hl chg mh (.okText text) = ⟨"ai", hl, aiChg text chg⟩ := by
    simp only [aiSummarize]
    rw [if_neg h1, if_pos h2]
  refine ⟨hmain, ?_, ?_⟩
  · intro oc
    cases oc with
    | noProvider => exact Or.inl rfl
    | thrown => exact Or.inl rfl
    | notOk st b => exact Or.inl rfl
    | okText t =>
      by_cases ht : t = ""
      · exact Or.inl (by simp [aiSummarize, ht])
      · by_cases hh : aiHighs t = []
        · refine Or.inr ?_
          simp only [aiSummarize]
          rw [if_neg ht, if_pos hh]
        · refine Or.inr ?_
          simp only [aiSummarize]
          rw [if_neg ht, if_neg hh]
  · intro ttl wk gen auth
    rw [hmain]
    simp only [frontLines, List.mem_cons]
    refine Or.inr (Or.inr (Or.inr (Or.inr (Or.inl ?_))))
    decide

/-- Witness for claim C5's amended theorem at the concrete delimiter-free
response `"hello"`. -/
theorem c5_source_tag_amended_witness :
    ("hello" : String) ≠ "" ∧ aiHighs "hello" = [] ∧
    aiSummarize ["- h1"] "draft" 5 (.okText "hello") =
      ⟨"ai", ["- h1"], aiChg "hello" "draft"⟩ :=
  ⟨by decide, by decide,
    (c5_source_tag_amended ["- h1"] "draft" 5 "hello" (by decide) (by decide)).1⟩

-- ===== claim C8 =====

/-- Counterexample to claim C8: in the `PROJECTS` comparator the featured
flag dominates the recency timestamp — a non-featured project with the later
timestamp is ordered after an earlier featured one (first conjunct), and
with equal timestamps the name-ascending rule is also overridden by the
featured flag (second conjunct). -/
theorem c8_counterexample :
    ((⟨"a", "aname", "", [], none, some 100⟩ : Project).updatedAt.getD 0 >
        (⟨"b", "bname", "", [], some true, some 50⟩ : Project).updatedAt.getD 0) ∧
    projectsComparator ⟨"a", "aname", "", [], none, some 100⟩
      ⟨"b", "bname", "", [], some true, some 50⟩ > 0 ∧
    projectsComparator ⟨"x", "aname", "", [], none, some 7⟩
      ⟨"y", "bname", "", [], some true, some 7⟩ > 0 := by
  refine ⟨by decide, by decide, by decide⟩

/-- Claim C8 (amended): the repository and merged-PR comparators order the
later recency timestamp first whenever the timestamps differ; the
`PROJECTS` comparator first orders featured projects before non-featured
ones, orders the later `updatedAt` first only among projects with equal
featured flags, and falls back to name ascending when both the flag and the
timestamp agree. -/
theorem c8_comparators_amended :
    (∀ a b : Repo, repoRecency a ≠ repoRecency b →
      (recentReposComparator a b < 0 ↔ repoRecency b < repoRecency a)) ∧
    (∀ a b : PR, a.merged_at.getD 0 ≠ b.merged_at.getD 0 →
      (mergedPRsComparator a b < 0 ↔ b.merged_at.getD 0 < a.merged_at.getD 0)) ∧
    (∀ a b : Project, a.featured.getD false = true → b.featured.getD false = false →
      projectsComparator a b < 0) ∧
    (∀ a b : Project, a.featured.getD false = b.featured.getD false →
      a.updatedAt.getD 0 ≠ b.updatedAt.getD 0 →
      (projectsComparator a b < 0 ↔ b.updatedAt.getD 0 < a.updatedAt.getD 0)) ∧
    (∀ a b : Project, a.featured.getD false = b.featured.getD false →
      a.updatedAt.getD 0 = b.updatedAt.getD 0 →
      (projectsComparator a b < 0 ↔
        (strLeB a.name b.name = true ∧ a.name ≠ b.name))) := by
  refine ⟨?_, ?_, ?_, ?_, ?_⟩
  · intro a b h
    simp only [recentReposComparator]
    omega
  · intro a b h
    simp only [mergedPRsComparator]
    omega
  · intro a b ha hb
    simp only [projectsComparator, ha, hb]
    norm_num
  · intro a b hf hu
    simp only [projectsComparator]
    rw [hf, if_neg (by simp), if_pos hu]
    omega
  · intro a b hf hu
    simp only [projectsComparator]
    rw [hf, if_neg (by simp), hu, if_neg (by simp)]
    by_cases h1 : a.name = b.name
    · rw [if_neg (by simp [h1]), if_pos (by simp [h1])]
      simp [h1]
    · by_cases h2 : strLeB a.name b.name = true
      · rw [if_pos (by simp [h1, h2])]
        simp [h1, h2]
      · rw [if_neg (by simp [h1, h2]), if_neg (by simp [h1])]
        simp [h1, h2]

/-- Witness for claim C8's amended theorem: two concrete repositories with
different recency timestamps, the later one ordered first. -/
theorem c8_comparators_amended_witness :
    repoRecency ⟨"a", "a", none, "", none, some 5, none⟩ ≠
      repoRecency ⟨"b", "b", none, "", none, some 3, none⟩ ∧
    (recentReposComparator ⟨"a", "a", none, "", none, some 5, none⟩
        ⟨"b", "b", none, "", none, some 3, none⟩ < 0 ↔
      repoRecency ⟨"b", "b", none, "", none, some 3, none⟩ <
        repoRecency ⟨"a", "a", none, "", none, some 5, none⟩) :=
  ⟨by decide, c8_comparators_amended.1 _ _ (by decide)⟩

-- ===== claim C7 =====

theorem splitChar_of_not_mem {sep : Char} {l : List Char} (h : sep ∉ l) :
    splitChar sep l = [l] := by
  induction l with
  | nil => rfl
  | cons c cs ih =>
    have hc : c ≠ sep := fun hc => h (hc ▸ List.mem_cons_self c cs)
    have hcs : sep ∉ cs := fun hm => h (List.mem_cons_of_mem c hm)
    simp only [splitChar, if_neg hc, ih hcs]

theorem splitChar_append_sep {sep : Char} {a : List Char} (b : List Char)
    (h : sep ∉ a) :
    splitChar sep (a ++ sep :: b) = a :: splitChar sep b := by
  induction a with
  | nil =>
    simp [splitChar]
  | cons c cs ih =>
    have hc : c ≠ sep := fun hc => h (hc ▸ List.mem_cons_self c cs)
    have hcs : sep ∉ cs := fun hm => h (List.mem_cons_of_mem c hm)
    rw [List.cons_append]
    show (if c = sep then [] :: splitChar sep (cs ++ sep :: b)
      else match splitChar sep (cs ++ sep :: b) with
        | [] => [[c]]
        | s :: ss => (c :: s) :: ss) = (c :: cs) :: splitChar sep b
    rw [if_neg hc, ih hcs]

theorem repoOfPR_segments {owner name : String}
    (ho : '/' ∉ owner.data) (hn : '/' ∉ name.data) :
    splitChar '/' ("https://api.github.com/repos/" ++ owner ++ "/" ++ name).data =
      ["https:".data, [], "api.github.com".data, "repos".data,
        owner.data, name.data] := by
  have hdata : ("https://api.github.com/repos/" ++ owner ++ "/" ++ name).data =
      "https:".data ++ '/' :: ([] ++ '/' :: ("api.github.com".data ++ '/' ::
        ("repos".data ++ '/' :: (owner.data ++ '/' :: name.data)))) := by
    show ("https://api.github.com/repos/".data ++ owner.data ++
        "/".data ++ name.data : List Char) = _
    simp
  rw [hdata]
  rw [splitChar_append_sep _ (by decide), splitChar_append_sep _ (by decide),
    splitChar_append_sep _ (by decide), splitChar_append_sep _ (by decide),
    splitChar_append_sep _ ho, splitChar_of_not_mem hn]

/-- Counterexample to claim C7: on the malformed repository URL
`"garbage"` (no path segments at all) `repoOfPR` returns `"garbage"`, not
the empty string the claim promises for every malformed URL. -/
theorem c7_counterexample :
    repoOfPR (some "garbage") = "garbage" ∧ ("garbage" : String) ≠ "" := by
  refine ⟨by decide, by decide⟩

/-- Claim C7 (amended): `repoOfPR` joins the last two (or, when the URL has
fewer slash-separated segments, all of its) segments with `/`; on the
well-formed URLs the collector stores it yields `owner/name`, and it yields
the empty string when `repository_url` is absent or empty — such records
are grouped under that string key. -/
theorem c7_repoOfPR_amended (owner name : String)
    (ho : '/' ∉ owner.data) (hn : '/' ∉ name.data) :
    repoOfPR (some ("https://api.github.com/repos/" ++ owner ++ "/" ++ name)) =
      owner ++ "/" ++ name ∧
    repoOfPR none = "" ∧ repoOfPR (some "") = "" := by
  refine ⟨?_, rfl, by decide⟩
  simp only [repoOfPR, repoOfPR_segments ho hn]
  show (if (owner ++ "/" ++ name : String) = "" then "" else owner ++ "/" ++ name) = _
  rw [if_neg ?_]
  intro hcon
  have : (owner ++ "/" ++ name).data = ("" : String).data := by rw [hcon]
  simp at this

/-- Witness for claim C7's amended theorem at `owner = "me"`,
`name = "proj"`. -/
theorem c7_repoOfPR_amended_witness :
    ('/' ∉ ("me" : String).data) ∧
    repoOfPR (some ("https://api.github.com/repos/" ++ "me" ++ "/" ++ "proj")) =
      "me" ++ "/" ++ "proj" :=
  ⟨by decide, (c7_repoOfPR_amended "me" "proj" (by decide) (by decide)).1⟩

-- ===== claim C1 =====

theorem lookupB_addB (k0 line k : String) : ∀ b : Buckets,
    lookupB (addB b k0 line) k = lookupB b k ++ (if k = k0 then [line] else []) := by
  intro b
  induction b with
  | nil =>
    by_cases h : k = k0
    · subst h
      simp [addB, lookupB]
    · have h' : ¬ k0 = k := fun hc => h hc.symm
      simp [addB, lookupB, h, h']
  | cons kv rest ih =>
    simp only [addB]
    by_cases h0 : kv.1 = k0
    · rw [if_pos h0]
      by_cases hk : kv.1 = k
      · have hkk0 : k = k0 := hk ▸ h0
        simp [lookupB, hk, hkk0]
      · have hne : ¬ k = k0 := fun hc => hk (h0 ▸ hc ▸ rfl)
        simp [lookupB, hk, hne]
    · rw [if_neg h0]
      by_cases hk : kv.1 = k
      · have hne : ¬ k = k0 := fun hc => h0 (hk ▸ hc ▸ rfl)
        simp [lookupB, hk, hne]
      · simp [lookupB, hk, ih]

theorem keys_addB (k0 line : String) : ∀ b : Buckets,
    (addB b k0 line).map Prod.fst =
      if k0 ∈ b.map Prod.fst then b.map Prod.fst else b.map Prod.fst ++ [k0] := by
  intro b
  induction b with
  | nil => simp [addB]
  | cons kv rest ih =>
    simp only [addB]
    by_cases h0 : kv.1 = k0
    · rw [if_pos h0]
      simp [h0]
    · rw [if_neg h0]
      simp only [List.map_cons, ih]
      by_cases hm : k0 ∈ rest.map Prod.fst
      · rw [if_pos hm, if_pos (by simp [hm])]
      · rw [if_neg hm, if_neg ?hcond, List.cons_append]
        case hcond =>
          simp only [List.mem_cons]
          rintro (hc | hc)
          · exact h0 hc.symm
          · exact hm hc

theorem mem_keys_addB (k0 line k : String) (b : Buckets) :
    k ∈ (addB b k0 line).map Prod.fst ↔ k ∈ b.map Prod.fst ∨ k = k0 := by
  rw [keys_addB]
  by_cases hm : k0 ∈ b.map Prod.fst
  · rw [if_pos hm]
    constructor
    · exact Or.inl
    · rintro (h | rfl)
      · exact h
      · exact hm
  · rw [if_neg hm]
    simp

theorem nodup_keys_addB (k0 line : String) (b : Buckets)
    (h : (b.map Prod.fst).Nodup) : ((addB b k0 line).map Prod.fst).Nodup := by
  rw [keys_addB]
  by_cases hm : k0 ∈ b.map Prod.fst
  · rw [if_pos hm]; exact h
  · rw [if_neg hm]
    refine List.Nodup.append h (List.nodup_singleton _) ?_
    intro x hx hx'
    simp only [List.mem_singleton] at hx'
    subst hx'
    exact hm hx

theorem lookupB_foldAdd (k : String) : ∀ ps : List (String × String), ∀ b : Buckets,
    lookupB (foldAdd b ps) k =
      lookupB b k ++ (ps.filter (fun p => p.1 = k)).map Prod.snd := by
  intro ps
  induction ps with
  | nil => intro b; simp [foldAdd]
  | cons p ps ih =>
    intro b
    have hstep : foldAdd b (p :: ps) = foldAdd (addB b p.1 p.2) ps := rfl
    rw [hstep, ih, lookupB_addB]
    by_cases hp : k = p.1
    · subst hp
      simp [List.filter_cons, List.append_assoc]
    · have hp' : ¬ p.1 = k := fun hc => hp hc.symm
      simp [List.filter_cons, hp, hp']

theorem mem_keys_foldAdd (k : String) : ∀ ps : List (String × String), ∀ b : Buckets,
    k ∈ (foldAdd b ps).map Prod.fst ↔
      k ∈ b.map Prod.fst ∨ k ∈ ps.map Prod.fst := by
  intro ps
  induction ps with
  | nil => intro b; simp [foldAdd]
  | cons p ps ih =>
    intro b
    have hstep : foldAdd b (p :: ps) = foldAdd (addB b p.1 p.2) ps := rfl
    rw [hstep, ih, mem_keys_addB]
    simp only [List.map_cons, List.mem_cons]
    tauto

theorem nodup_keys_foldAdd : ∀ ps : List (String × String), ∀ b : Buckets,
    (b.map Prod.fst).Nodup → ((foldAdd b ps).map Prod.fst).Nodup := by
  intro ps
  induction ps with
  | nil => intro b h; exact h
  | cons p ps ih =>
    intro b h
    exact ih _ (nodup_keys_addB p.1 p.2 b h)

theorem foldAdd_append (b : Buckets) (ps qs : List (String × String)) :
    foldAdd b (ps ++ qs) = foldAdd (foldAdd b ps) qs := by
  simp [foldAdd, List.foldl_append]

-- ===== claim C2: string-order lemmas =====

theorem charListLe_total : ∀ a b : List Char, charListLe a b = true ∨ charListLe b a = true := by
  intro a
  induction a with
  | nil => intro b; exact Or.inl rfl
  | cons x xs ih =>
    intro b
    cases b with
    | nil => exact Or.inr rfl
    | cons y ys =>
      simp only [charListLe]
      by_cases h1 : x.toNat < y.toNat
      · exact Or.inl (by rw [if_pos h1])
      · by_cases h2 : y.toNat < x.toNat
        · exact Or.inr (by rw [if_pos h2])
        · rcases ih ys with h | h
          · exact Or.inl (by rw [if_neg h1, if_neg h2]; exact h)
          · exact Or.inr (by rw [if_neg h2, if_neg h1]; exact h)

theorem charListLe_trans : ∀ a b c : List Char,
    charListLe a b = true → charListLe b c = true → charListLe a c = true := by
  intro a
  induction a with
  | nil => intro b c _ _; rfl
  | cons x xs ih =>
    intro b c hab hbc
    cases b with
    | nil => simp [charListLe] at hab
    | cons y ys =>
      cases c with
      | nil => simp [charListLe] at hbc
      | cons z zs =>
        simp only [charListLe] at hab hbc ⊢
        by_cases hxy : x.toNat < y.toNat
        · by_cases hyz : y.toNat < z.toNat
          · rw [if_pos (by omega : x.toNat < z.toNat)]
          · by_cases hzy : z.toNat < y.toNat
            · rw [if_neg hyz, if_pos hzy] at hbc
              simp at hbc
            · rw [if_pos (by omega : x.toNat < z.toNat)]
        · by_cases hyx : y.toNat < x.toNat
          · rw [if_neg hxy, if_pos hyx] at hab
            simp at hab
          · rw [if_neg hxy, if_neg hyx] at hab
            by_cases hyz : y.toNat < z.toNat
            · rw [if_pos (by omega : x.toNat < z.toNat)]
            · by_cases hzy : z.toNat < y.toNat
              · rw [if_neg hyz, if_pos hzy] at hbc
                simp at hbc
              · rw [if_neg hyz, if_neg hzy] at hbc
                rw [if_neg (by omega : ¬ x.toNat < z.toNat),
                  if_neg (by omega : ¬ z.toNat < x.toNat)]
                exact ih ys zs hab hbc

theorem charListLe_antisymm : ∀ a b : List Char,
    charListLe a b = true → charListLe b a = true → a = b := by
  intro a
  induction a with
  | nil =>
    intro b _ hba
    cases b with
    | nil => rfl
    | cons y ys => simp [charListLe] at hba
  | cons x xs ih =>
    intro b hab hba
    cases b with
    | nil => simp [charListLe] at hab
    | cons y ys =>
      simp only [charListLe] at hab hba
      by_cases hxy : x.toNat < y.toNat
      · rw [if_neg (by omega : ¬ y.toNat < x.toNat), if_pos hxy] at hba
        simp at hba
      · by_cases hyx : y.toNat < x.toNat
        · rw [if_neg hxy, if_pos hyx] at hab
          simp at hab
        · have hv : x.toNat = y.toNat := by omega
          have hx : x = y := by
            have h2 := congrArg Char.ofNat hv
            rwa [Char.ofNat_toNat, Char.ofNat_toNat] at h2
          rw [if_neg hxy, if_neg hyx] at hab
          rw [if_neg hyx, if_neg hxy] at hba
          rw [hx, ih ys hab hba]

theorem strLeB_total (a b : String) : strLeB a b = true ∨ strLeB b a = true :=
  charListLe_total a.data b.data

theorem strLeB_trans (a b c : String) :
    strLeB a b = true → strLeB b c = true → strLeB a c = true :=
  charListLe_trans a.data b.data c.data

theorem strLeB_antisymm (a b : String) :
    strLeB a b = true → strLeB b a = true → a = b := by
  intro hab hba
  cases a with
  | mk da =>
    cases b with
    | mk db =>
      have : da = db := charListLe_antisymm da db hab hba
      rw [this]

-- ===== claim C2: sort lemmas =====

theorem perm_insertBy (le : α → α → Bool) (a : α) :
    ∀ l : List α, (insertBy le a l).Perm (a :: l) := by
  intro l
  induction l with
  | nil => exact List.Perm.refl _
  | cons b l ih =>
    simp only [insertBy]
    by_cases h : le a b = true
    · rw [if_pos h]
    · rw [if_neg h]
      exact (ih.cons b).trans (List.Perm.swap a b l)

theorem perm_sortBy (le : α → α → Bool) :
    ∀ l : List α, (sortBy le l).Perm l := by
  intro l
  induction l with
  | nil => exact List.Perm.refl _
  | cons a l ih =>
    exact (perm_insertBy le a (sortBy le l)).trans (ih.cons a)

theorem sorted_insertBy (le : α → α → Bool)
    (htot : ∀ a b, le a b = true ∨ le b a = true)
    (htrans : ∀ a b c, le a b = true → le b c = true → le a c = true)
    (a : α) : ∀ l : List α, List.Sorted (fun x y => le x y = true) l →
      List.Sorted (fun x y => le x y = true) (insertBy le a l) := by
  intro l
  induction l with
  | nil => intro _; simp [insertBy]
  | cons b l ih =>
    intro hs
    rw [List.sorted_cons] at hs
    obtain ⟨hb, hl⟩ := hs
    simp only [insertBy]
    by_cases h : le a b = true
    · rw [if_pos h]
      rw [List.sorted_cons]
      refine ⟨?_, by rw [List.sorted_cons]; exact ⟨hb, hl⟩⟩
      intro c hc
      rcases List.mem_cons.mp hc with rfl | hc
      · exact h
      · exact htrans a b c h (hb c hc)
    · rw [if_neg h]
      rw [List.sorted_cons]
      refine ⟨?_, ih hl⟩
      intro c hc
      rcases List.mem_cons.mp ((perm_insertBy le a l).mem_iff.mp hc) with hca | hc
      · rw [hca]
        rcases htot a b with h' | h'
        · exact absurd h' h
        · exact h'
      · exact hb c hc

theorem sorted_sortBy (le : α → α → Bool)
    (htot : ∀ a b, le a b = true ∨ le b a = true)
    (htrans : ∀ a b c, le a b = true → le b c = true → le a c = true) :
    ∀ l : List α, List.Sorted (fun x y => le x y = true) (sortBy le l) := by
  intro l
  induction l with
  | nil => simp [sortBy]
  | cons a l ih => exact sorted_insertBy le htot htrans a _ ih

theorem sortBy_strLeB_eq_of_perm {l₁ l₂ : List String} (h : l₁.Perm l₂) :
    sortBy strLeB l₁ = sortBy strLeB l₂ := by
  haveI : IsAntisymm String (fun x y => strLeB x y = true) :=
    ⟨fun a b => strLeB_antisymm a b⟩
  exact List.eq_of_perm_of_sorted
    (((perm_sortBy strLeB l₁).trans h).trans (perm_sortBy strLeB l₂).symm)
    (sorted_sortBy strLeB strLeB_total strLeB_trans l₁)
    (sorted_sortBy strLeB strLeB_total strLeB_trans l₂)

-- ===== claim C2: assembly =====

theorem eventStep_eq (b : Buckets) (e : Event) (h : e.type ∈ interestingTypes) :
    eventStep b e = addB b (eventRepoName e) (eventLine e) := by
  simp only [interestingTypes, List.mem_cons, List.not_mem_nil, or_false] at h
  rcases h with h | h | h | h | h <;> simp [eventStep, eventLine, h]

theorem foldl_eventStep : ∀ l : List Event, ∀ b : Buckets,
    (∀ e ∈ l, e.type ∈ interestingTypes) →
      l.foldl eventStep b = foldAdd b (l.map fun e => (eventRepoName e, eventLine e)) := by
  intro l
  induction l with
  | nil => intro b _; rfl
  | cons e l ih =>
    intro b h
    simp only [List.foldl_cons, List.map_cons]
    rw [eventStep_eq b e (h e (List.mem_cons_self e l))]
    exact ih _ fun x hx => h x (List.mem_cons_of_mem _ hx)

theorem foldl_addB_map {β : Type} (f g : β → String) : ∀ l : List β, ∀ b : Buckets,
    l.foldl (fun b x => addB b (f x) (g x)) b = foldAdd b (l.map fun x => (f x, g x)) := by
  intro l
  induction l with
  | nil => intro b; rfl
  | cons x l ih =>
    intro b
    simp only [List.foldl_cons, List.map_cons]
    exact ih _

theorem interestingEvents_types (now : Int) (cache : Cache) :
    ∀ e ∈ interestingEvents now cache, e.type ∈ interestingTypes := by
  intro e he
  have h1 : e ∈ (cache.events.filter fun e => withinLastDays now e.created_at 14).filter
      (fun e => interestingTypes.contains e.type) :=
    (List.take_sublist _ _).mem he
  have h2 := List.of_mem_filter h1
  simpa using h2

theorem chgBuckets_eq (now : Int) (cache : Cache) :
    chgBuckets now cache = foldAdd [] (chgPairs now cache) := by
  unfold chgBuckets chgPairs
  rw [foldl_addB_map (fun pr => repoOfPR pr.repository_url) (fun pr => chgPRBullet pr)
    (mergedPRs now cache) []]
  rw [foldl_eventStep (interestingEvents now cache) _ (interestingEvents_types now cache)]
  rw [foldAdd_append]

theorem map_filter_pair {β : Type} (f : β → String × String) (k : String) :
    ∀ l : List β,
      (((l.map f).filter fun p => p.1 = k).map Prod.snd) =
        ((l.filter fun x => (f x).1 = k).map fun x => (f x).2) := by
  intro l
  induction l with
  | nil => rfl
  | cons x l ih =>
    simp only [List.map_cons, List.filter_cons]
    by_cases h : (f x).1 = k
    · simp [h, ih]
    · simp [h, ih]

theorem lookupB_chgBuckets (now : Int) (cache : Cache) (k : String) :
    lookupB (chgBuckets now cache) k = specBulletsOf now cache k := by
  rw [chgBuckets_eq, lookupB_foldAdd]
  have hnil : lookupB [] k = [] := rfl
  rw [hnil, List.nil_append]
  unfold chgPairs specBulletsOf
  rw [List.filter_append, List.map_append]
  congr 1
  · exact map_filter_pair _ k (mergedPRs now cache)
  · exact map_filter_pair _ k (interestingEvents now cache)

theorem sortedKeys_eq (now : Int) (cache : Cache) :
    sortBy strLeB ((chgBuckets now cache).map Prod.fst) = specChangelogRepos now cache := by
  unfold specChangelogRepos
  have hnd1 : ((chgBuckets now cache).map Prod.fst).Nodup := by
    rw [chgBuckets_eq]
    exact nodup_keys_foldAdd _ [] (by simp)
  have hnd2 : ((chgPairs now cache).map Prod.fst).dedup.Nodup := List.nodup_dedup _
  refine sortBy_strLeB_eq_of_perm ?_
  refine (List.perm_ext_iff_of_nodup hnd1 hnd2).mpr fun a => ?_
  rw [List.mem_dedup, chgBuckets_eq, mem_keys_foldAdd]
  simp

theorem foldl_append_sections {κ : Type} (f : κ → List String) :
    ∀ l : List κ, ∀ acc : List String,
      l.foldl (fun a k => a ++ f k) acc = acc ++ catMap f l := by
  intro l
  induction l with
  | nil => intro acc; simp [catMap]
  | cons k l ih =>
    intro acc
    simp only [List.foldl_cons]
    rw [ih]
    simp [catMap, List.append_assoc]

theorem catMap_congr {κ : Type} {f g : κ → List String}
    (h : ∀ k, f k = g k) : ∀ l : List κ, catMap f l = catMap g l := by
  intro l
  induction l with
  | nil => rfl
  | cons k l ih => simp only [catMap, h k, ih]

theorem chgLines_eq (now : Int) (cache : Cache) :
    buildHeuristicChangelogLines now cache = specChangelogLines now cache := by
  simp only [buildHeuristicChangelogLines]
  rw [foldl_append_sections
    (fun k => s!"### {k}" :: (lookupB (chgBuckets now cache) k ++ [""]))
    (sortBy strLeB ((chgBuckets now cache).map Prod.fst)) []]
  rw [List.nil_append]
  rw [sortedKeys_eq]
  rw [catMap_congr (fun k => by rw [lookupB_chgBuckets]) (specChangelogRepos now cache)]
  unfold specChangelogLines
  by_cases hrep : specChangelogRepos now cache = []
  · rw [hrep]
    simp [catMap]
  · rw [if_neg hrep]
    have hne : catMap (fun k => s!"### {k}" :: (specBulletsOf now cache k ++ [""]))
        (specChangelogRepos now cache) ≠ [] := by
      cases h : specChangelogRepos now cache with
      | nil => exact absurd h hrep
      | cons k ks => simp [catMap]
    rw [if_neg hne]

/-- One windowed push event for repository `AAA`. -/
def evAAA : Event :=
  ⟨"e", "PushEvent", some 0, some "AAA", some 1, none, none, none, none, none, none⟩

/-- One windowed push event for repository `BBB`. -/
def evBBB : Event :=
  ⟨"x", "PushEvent", some 0, some "BBB", some 1, none, none, none, none, none, none⟩

/-- Cache with 81 windowed, type-filtered events — one more than the
`.slice(0, 80)` cap of `interestingEvents` — whose 81st event is the only
one for repository `BBB`. -/
def overflowCache : Cache :=
  ⟨"t", "u", [], List.replicate 80 evAAA ++ [evBBB], []⟩

set_option maxRecDepth 100000 in
/-- Counterexample to claim C2: the changelog does not partition ALL
windowed, type-filtered events — `interestingEvents` truncates to the
first 80 (`.slice(0, 80)`; likewise `mergedPRs` truncates to 50).  In
`overflowCache` the 81st event is windowed and type-filtered and belongs to
repository `BBB`, yet the emitted changelog has no `### BBB` section and
the bucket partition has no `BBB` key. -/
theorem c2_counterexample :
    evBBB ∈ (overflowCache.events.filter fun e =>
      withinLastDays 0 e.created_at 14).filter
        (fun e => interestingTypes.contains e.type) ∧
    eventRepoName evBBB = "BBB" ∧
    "### BBB" ∉ buildHeuristicChangelogLines 0 overflowCache ∧
    "BBB" ∉ (chgBuckets 0 overflowCache).map Prod.fst := by
  refine ⟨by decide, by decide, by decide, by decide⟩

/-- Claim C2 (amended): `buildHeuristicChangelog` partitions the capped
pipeline views — the first 80 windowed, type-filtered events and the 50
most recent windowed merged PRs — into buckets keyed by owning-repository
name: the output equals, line for line, the spec-side changelog whose
section headers are exactly the distinct owning-repository names of those
capped views with at least one bullet sorted lexicographically, whose
sections list merged-PR bullets first and then event bullets in encounter
order, and which is the single placeholder line
`_Sem mudanças relevantes nesta semana._` when no repository has a bullet.
Records beyond the caps are dropped and contribute no section (see the
counterexample), so the partition is not of all windowed records as the
original claim asserted. -/
theorem c2_changelog_partition (now : Int) (cache : Cache) :
    buildHeuristicChangelog now cache = joinSep "\n" (specChangelogLines now cache) := by
  unfold buildHeuristicChangelog
  rw [chgLines_eq]

end Aurora
